import Mathlib

/-!
Shallow embedding of the chainbound/fiber-benchmarks benchmark core
(`main.go`: the `TransactionBenchmarker`, the `BlockBenchmarker`
snapshot, `setupSink` and the `ClickhouseSink`), together with the
statistics functions of the montanaflynn/stats v0.7 library that
`main.go` calls (`Mean`, `Min`, `Max`, `Median`, `Percentile`).
Go `float64` difference values are modelled as exact rationals (`ℚ`);
Go maps are modelled as association lists with first-match lookup; the
reconciler select loop is modelled as a fold over an explicit list of
channel events.
-/

namespace FiberBench

/-- Error values of the montanaflynn/stats library: `EmptyInputErr`
("Input must not be empty.") and `BoundsErr` ("Input is outside of range."). -/
inductive StatsErr where
  | emptyInput
  | bounds
deriving DecidableEq

/-- Go `stats.Sum`: running sum of the slice (the empty-input error branch of
the Go `Sum` is unreachable from `Mean`, which checks the length first). -/
def statsSum (l : List ℚ) : ℚ := l.foldl (fun s v => s + v) 0

/-- Go `stats.Mean`: error on empty input, otherwise `Sum(input) / len(input)`. -/
def statsMean (l : List ℚ) : Except StatsErr ℚ :=
  if l.length = 0 then .error .emptyInput
  else .ok (statsSum l / (l.length : ℚ))

/-- Go `stats.Min`: error on empty input, otherwise the running minimum
starting from the first element. -/
def statsMin (l : List ℚ) : Except StatsErr ℚ :=
  match l with
  | [] => .error .emptyInput
  | x :: xs => .ok (xs.foldl (fun m v => if v < m then v else m) x)

/-- Go `stats.Max`: error on empty input, otherwise the running maximum
starting from the first element. -/
def statsMax (l : List ℚ) : Except StatsErr ℚ :=
  match l with
  | [] => .error .emptyInput
  | x :: xs => .ok (xs.foldl (fun m v => if m < v then v else m) x)

/-- Insert a value into an ascending list (used to model the ascending
sort of the stats library's `sortedCopy`). -/
def insertAsc (x : ℚ) : List ℚ → List ℚ
  | [] => [x]
  | y :: ys => if x ≤ y then x :: y :: ys else y :: insertAsc x ys

/-- Go `stats.sortedCopy`: an ascending sorted copy of the input slice. -/
def sortedCopy (l : List ℚ) : List ℚ := l.foldr insertAsc []

/-- Go `stats.Median`: sort; error on empty input; for even length the mean of
the two middle elements (`Mean(c[l/2-1 : l/2+1])`), for odd length the
middle element `c[(l-1)/2]`. -/
def statsMedian (l : List ℚ) : Except StatsErr ℚ :=
  let c := sortedCopy l
  if c.length = 0 then .error .emptyInput
  else if c.length % 2 = 0 then
    .ok ((c.getD (c.length / 2 - 1) 0 + c.getD (c.length / 2) 0) / 2)
  else .ok (c.getD ((c.length - 1) / 2) 0)

/-- Go `stats.Percentile` of montanaflynn/stats v0.7 (pinned in `go.mod`):
empty input errors; a single-element input returns that element
regardless of `percent`; `percent` outside `(0, 100]` errors; otherwise
with `index = percent/100 * len`, a whole `index` yields `c[index-1]`,
a fractional `index > 1` yields the midpoint `(c[i-1]+c[i])/2` with
`i = trunc(index)`, and a fractional `index ≤ 1` errors with `BoundsErr`.
The Go wholeness test `index == float64(int64(index))` and the `int()`
truncation are modelled with `Int.floor`, which agrees with truncation
toward zero because `index > 0` on these branches. -/
def statsPercentile (l : List ℚ) (percent : ℚ) : Except StatsErr ℚ :=
  if l.length = 0 then .error .emptyInput
  else if l.length = 1 then .ok (l.headD 0)
  else if percent ≤ 0 ∨ 100 < percent then .error .bounds
  else
    let c := sortedCopy l
    let index : ℚ := percent / 100 * (c.length : ℚ)
    if index = (⌊index⌋ : ℚ) then
      .ok (c.getD (⌊index⌋.toNat - 1) 0)
    else if 1 < index then
      .ok ((c.getD (⌊index⌋.toNat - 1) 0 + c.getD ⌊index⌋.toNat 0) / 2)
    else .error .bounds

/-- Go `types.ObservationStatsRow`: the per-interval statistics row.
`time.Time` values are modelled as integers (Unix microseconds). -/
structure ObservationStatsRow where
  startTime : Int
  endTime : Int
  fiberWon : ℚ
  minDiff : ℚ
  maxDiff : ℚ
  mean : ℚ
  p1 : ℚ
  p5 : ℚ
  p10 : ℚ
  p15 : ℚ
  p20 : ℚ
  p25 : ℚ
  p30 : ℚ
  p35 : ℚ
  p40 : ℚ
  p45 : ℚ
  p50 : ℚ
  p55 : ℚ
  p60 : ℚ
  p65 : ℚ
  p70 : ℚ
  p75 : ℚ
  p80 : ℚ
  p85 : ℚ
  p90 : ℚ
  p95 : ℚ
  p99 : ℚ
  benchmarkID : String
deriving DecidableEq

/-- The Go zero value `types.ObservationStatsRow{}` returned on every
error path of `buildObservationStats`. -/
def emptyStatsRow : ObservationStatsRow :=
  { startTime := 0, endTime := 0, fiberWon := 0, minDiff := 0, maxDiff := 0,
    mean := 0, p1 := 0, p5 := 0, p10 := 0, p15 := 0, p20 := 0, p25 := 0,
    p30 := 0, p35 := 0, p40 := 0, p45 := 0, p50 := 0, p55 := 0, p60 := 0,
    p65 := 0, p70 := 0, p75 := 0, p80 := 0, p85 := 0, p90 := 0, p95 := 0,
    p99 := 0, benchmarkID := "" }

/-- Go `buildObservationStats` (`main.go`): counts `fiberWon`/`blxrWon` with
`diff > 0` deciding a fiber win (a zero difference counts for the other
side), then computes mean, min, max and the 21 percentiles in source
order, returning the Go zero row together with the first error
encountered, and otherwise the populated row with
`FiberWon = fiberWon / (fiberWon + blxrWon)`. -/
def buildObservationStats (differences : List ℚ) : Except StatsErr ObservationStatsRow :=
  let fiberWonCount : ℚ := (differences.countP (fun d => decide (0 < d)) : ℚ)
  let blxrWonCount : ℚ := (differences.countP (fun d => !(decide (0 < d))) : ℚ)
  do
    let mean ← statsMean differences
    let mn ← statsMin differences
    let mx ← statsMax differences
    let p1 ← statsPercentile differences 1
    let p5 ← statsPercentile differences 5
    let p10 ← statsPercentile differences 10
    let p15 ← statsPercentile differences 15
    let p20 ← statsPercentile differences 20
    let p25 ← statsPercentile differences 25
    let p30 ← statsPercentile differences 30
    let p35 ← statsPercentile differences 35
    let p40 ← statsPercentile differences 40
    let p45 ← statsPercentile differences 45
    let p50 ← statsPercentile differences 50
    let p55 ← statsPercentile differences 55
    let p60 ← statsPercentile differences 60
    let p65 ← statsPercentile differences 65
    let p70 ← statsPercentile differences 70
    let p75 ← statsPercentile differences 75
    let p80 ← statsPercentile differences 80
    let p85 ← statsPercentile differences 85
    let p90 ← statsPercentile differences 90
    let p95 ← statsPercentile differences 95
    let p99 ← statsPercentile differences 99
    return { startTime := 0, endTime := 0,
             fiberWon := fiberWonCount / (fiberWonCount + blxrWonCount),
             minDiff := mn, maxDiff := mx, mean := mean,
             p1 := p1, p5 := p5, p10 := p10, p15 := p15, p20 := p20,
             p25 := p25, p30 := p30, p35 := p35, p40 := p40, p45 := p45,
             p50 := p50, p55 := p55, p60 := p60, p65 := p65, p70 := p70,
             p75 := p75, p80 := p80, p85 := p85, p90 := p90, p95 := p95,
             p99 := p99, benchmarkID := "" }

/-- The win-ratio formula shared by `buildObservationStats` and
`printStats` (`wonRatio := fiberWon / (fiberWon + blxrWon)`). -/
def printStatsWonFrac (differences : List ℚ) : ℚ :=
  (differences.countP (fun d => decide (0 < d)) : ℚ) /
    ((differences.countP (fun d => decide (0 < d)) : ℚ) +
     (differences.countP (fun d => !(decide (0 < d))) : ℚ))

/-- Go `types.Observation`: a transaction hash (32-byte identifier, modelled
as `Nat`), the local receipt timestamp in microseconds, and the metadata
fields (`From`, `To`, `CallDataSize`) carried by the current
`types.Observation`. -/
structure Obs where
  hash : Nat
  timestamp : Int
  fromAddr : String
  toAddr : String
  callDataSize : Int
deriving DecidableEq

/-- The two observation sources of the transaction benchmark. -/
inductive Source where
  | fiber
  | other
deriving DecidableEq

/-- One event delivered to the `runInterval` select loop: an observation
on the fiber stream, an observation on the other stream, or an execution
payload carrying the hashes of its transactions. -/
inductive Event where
  | fiberObs (o : Obs)
  | otherObs (o : Obs)
  | payload (txs : List Nat)
deriving DecidableEq

/-- First-match association-list lookup, modelling Go map indexing. -/
def alookup {α : Type} : List (Nat × α) → Nat → Option α
  | [], _ => none
  | (k, v) :: rest, h => if k = h then some v else alookup rest h

/-- Go `some`-biased choice, modelling "the map already had an entry". -/
def optOr {α : Type} (a b : Option α) : Option α :=
  match a with
  | some v => some v
  | none => b

/-- The local state of one `runInterval` pass: the two per-source
hash → Observation maps, the ground-truth hash set (as a duplicate-free
list), and the log of duplicate-hash diagnostics. -/
structure IState where
  fiberMap : List (Nat × Obs)
  otherMap : List (Nat × Obs)
  truthList : List Nat
  dups : List (Source × Nat)
deriving DecidableEq

/-- The maps and logs at the start of an interval. -/
def initState : IState := ⟨[], [], [], []⟩

/-- Go `truthMap[tx.Hash] = struct{}{}`: set insertion. -/
def addTruth (t : List Nat) (h : Nat) : List Nat :=
  if h ∈ t then t else t ++ [h]

/-- One iteration of the `runInterval` select loop (`main.go`): a fiber or
other observation is stored only if its hash is not yet in that source's
map, and otherwise logged as a duplicate diagnostic; a payload adds all
its transaction hashes to the truth set, but only when cross-check is
enabled. -/
def step (crossCheck : Bool) (s : IState) : Event → IState
  | .fiberObs o =>
    if (alookup s.fiberMap o.hash).isSome then
      { s with dups := s.dups ++ [(Source.fiber, o.hash)] }
    else
      { s with fiberMap := s.fiberMap ++ [(o.hash, o)] }
  | .otherObs o =>
    if (alookup s.otherMap o.hash).isSome then
      { s with dups := s.dups ++ [(Source.other, o.hash)] }
    else
      { s with otherMap := s.otherMap ++ [(o.hash, o)] }
  | .payload txs =>
    if crossCheck then { s with truthList := txs.foldl addTruth s.truthList } else s

/-- Go `runInterval` up to the timer firing: fold the select-loop body over
the finite list of events delivered during the interval. -/
def runIntervalState (crossCheck : Bool) (events : List Event) : IState :=
  events.foldl (step crossCheck) initState

/-- The first observation for hash `h` on the fiber stream within the
event list, if any. -/
def firstFiber (es : List Event) (h : Nat) : Option Obs :=
  es.findSome? fun e =>
    match e with
    | .fiberObs o => if o.hash = h then some o else none
    | _ => none

/-- The first observation for hash `h` on the other stream within the
event list, if any. -/
def firstOther (es : List Event) (h : Nat) : Option Obs :=
  es.findSome? fun e =>
    match e with
    | .otherObs o => if o.hash = h then some o else none
    | _ => none

/-- How many fiber observations for hash `h` the event list contains. -/
def fiberEventCount (es : List Event) (h : Nat) : Nat :=
  es.countP fun e =>
    match e with
    | .fiberObs o => decide (o.hash = h)
    | _ => false

/-- How many other-source observations for hash `h` the event list
contains. -/
def otherEventCount (es : List Event) (h : Nat) : Nat :=
  es.countP fun e =>
    match e with
    | .otherObs o => decide (o.hash = h)
    | _ => false

/-- The number of duplicate diagnostics logged for a (source, hash)
pair. -/
def dupCount (s : IState) (src : Source) (h : Nat) : Nat :=
  s.dups.countP fun p => decide (p = (src, h))

/-- The hashes of the fiber observations in order of delivery. -/
def fiberHashes (es : List Event) : List Nat :=
  es.filterMap fun e =>
    match e with
    | .fiberObs o => some o.hash
    | _ => none

/-- The hashes of the other-source observations in order of delivery. -/
def otherHashes (es : List Event) : List Nat :=
  es.filterMap fun e =>
    match e with
    | .otherObs o => some o.hash
    | _ => none

/-- All transaction hashes carried by payload events, in order. -/
def payloadHashes (es : List Event) : List Nat :=
  (es.filterMap fun e =>
    match e with
    | .payload txs => some txs
    | _ => none).flatten

/-- Go `microDiff / 1000`: the float64 millisecond difference, as an exact
rational. -/
def milliDiff (micro : Int) : ℚ := (micro : ℚ) / 1000

/-- Go `types.ConfirmedObservationRow` as recorded by the transaction
benchmarker's sink calls. -/
structure ConfirmedRow where
  txHash : Nat
  fiberTimestamp : Int
  otherTimestamp : Int
  difference : Int
  benchmarkID : String
  fromAddr : String
  toAddr : String
  callDataSize : Int
deriving DecidableEq

/-- The three-way classification of `processIntervalResults`: both
sources saw the hash, only fiber saw it, or only the other source saw
it. -/
inductive SeenClass where
  | bothSaw
  | onlyFiber
  | onlyOther
deriving DecidableEq

/-- The class assigned to a hash by the `switch` in
`processIntervalResults`; `none` when neither source observed it (the
switch falls through without any matching case). -/
def classify (fm om : List (Nat × Obs)) (h : Nat) : Option SeenClass :=
  match alookup fm h, alookup om h with
  | some _, some _ => some .bothSaw
  | some _, none => some .onlyFiber
  | none, some _ => some .onlyOther
  | none, none => none

/-- The `for hash := range truthMap` loop of `processIntervalResults`
(`main.go`): for each universe hash, both-saw records the millisecond
difference and a full row; fiber-only records a row with zeroed other
timestamp and zero difference plus a missing-from-other warning;
other-only records a row with zeroed fiber timestamp and zero difference
plus a missing-from-fiber warning; a hash seen by neither source
produces nothing.  Rows are recorded only when a sink is configured and
warnings only when `logMissing` is set.  Returns (differences, rows,
missing warnings), where a warning `(src, h)` means source `src` did not
see hash `h`. -/
def processLoop (bench : String) (sinkPresent logMissing : Bool)
    (fm om : List (Nat × Obs)) :
    List Nat → List ℚ × List ConfirmedRow × List (Source × Nat)
  | [] => ([], [], [])
  | h :: rest =>
    let tail := processLoop bench sinkPresent logMissing fm om rest
    match alookup fm h, alookup om h with
    | some fo, some oo =>
      (milliDiff (oo.timestamp - fo.timestamp) :: tail.1,
       (if sinkPresent then
          [⟨h, fo.timestamp, oo.timestamp, oo.timestamp - fo.timestamp,
            bench, fo.fromAddr, fo.toAddr, fo.callDataSize⟩]
        else []) ++ tail.2.1,
       tail.2.2)
    | some fo, none =>
      (tail.1,
       (if sinkPresent then
          [⟨h, fo.timestamp, 0, 0, bench, fo.fromAddr, fo.toAddr, fo.callDataSize⟩]
        else []) ++ tail.2.1,
       (if logMissing then [(Source.other, h)] else []) ++ tail.2.2)
    | none, some oo =>
      (tail.1,
       (if sinkPresent then
          [⟨h, 0, oo.timestamp, 0, bench, oo.fromAddr, oo.toAddr, oo.callDataSize⟩]
        else []) ++ tail.2.1,
       (if logMissing then [(Source.fiber, h)] else []) ++ tail.2.2)
    | none, none => tail

/-- Go `processIntervalResults` (`main.go`): run the classification loop
over the truth-map universe and aggregate the collected differences with
`buildObservationStats`. -/
def processIntervalResults (bench : String) (sinkPresent logMissing : Bool)
    (s : IState) :
    (List ℚ × List ConfirmedRow × List (Source × Nat)) × Except StatsErr ObservationStatsRow :=
  let out := processLoop bench sinkPresent logMissing s.fiberMap s.otherMap s.truthList
  (out, buildObservationStats out.1)

theorem optOr_assoc {α : Type} (a b c : Option α) :
    optOr (optOr a b) c = optOr a (optOr b c) := by
  cases a <;> cases b <;> rfl

theorem optOr_none {α : Type} (a : Option α) : optOr a none = a := by
  cases a <;> rfl

theorem alookup_append_single {α : Type} (m : List (Nat × α)) (k : Nat) (v : α)
    (h : Nat) :
    alookup (m ++ [(k, v)]) h = optOr (alookup m h) (if k = h then some v else none) := by
  induction m with
  | nil => simp [alookup, optOr]
  | cons p rest ih =>
    obtain ⟨k1, v1⟩ := p
    by_cases hk : k1 = h <;> simp [alookup, hk, ih, optOr]

theorem alookup_eq_none_iff {α : Type} (m : List (Nat × α)) (h : Nat) :
    alookup m h = none ↔ h ∉ m.map Prod.fst := by
  induction m with
  | nil => simp [alookup]
  | cons p rest ih =>
    obtain ⟨k1, v1⟩ := p
    by_cases hk : k1 = h
    · simp [alookup, hk]
    · simp only [alookup, if_neg hk, ih, List.map_cons, List.mem_cons]
      constructor
      · intro hn hc
        rcases hc with hc | hc
        · exact hk hc.symm
        · exact hn hc
      · intro hn hc
        exact hn (Or.inr hc)

theorem firstFiber_cons_fiber (o : Obs) (rest : List Event) (h : Nat) :
    firstFiber (Event.fiberObs o :: rest) h
      = optOr (if o.hash = h then some o else none) (firstFiber rest h) := by
  by_cases hh : o.hash = h <;> simp [firstFiber, List.findSome?_cons, hh, optOr]

theorem firstFiber_cons_other (o : Obs) (rest : List Event) (h : Nat) :
    firstFiber (Event.otherObs o :: rest) h = firstFiber rest h := by
  simp [firstFiber, List.findSome?_cons]

theorem firstFiber_cons_payload (txs : List Nat) (rest : List Event) (h : Nat) :
    firstFiber (Event.payload txs :: rest) h = firstFiber rest h := by
  simp [firstFiber, List.findSome?_cons]

theorem firstOther_cons_other (o : Obs) (rest : List Event) (h : Nat) :
    firstOther (Event.otherObs o :: rest) h
      = optOr (if o.hash = h then some o else none) (firstOther rest h) := by
  by_cases hh : o.hash = h <;> simp [firstOther, List.findSome?_cons, hh, optOr]

theorem firstOther_cons_fiber (o : Obs) (rest : List Event) (h : Nat) :
    firstOther (Event.fiberObs o :: rest) h = firstOther rest h := by
  simp [firstOther, List.findSome?_cons]

theorem firstOther_cons_payload (txs : List Nat) (rest : List Event) (h : Nat) :
    firstOther (Event.payload txs :: rest) h = firstOther rest h := by
  simp [firstOther, List.findSome?_cons]

theorem step_fiberObs_isSome (cc : Bool) (s : IState) (o : Obs)
    (hs : (alookup s.fiberMap o.hash).isSome = true) :
    step cc s (Event.fiberObs o) = { s with dups := s.dups ++ [(Source.fiber, o.hash)] } := by
  simp [step, hs]

theorem step_fiberObs_isNone (cc : Bool) (s : IState) (o : Obs)
    (hs : (alookup s.fiberMap o.hash).isSome = false) :
    step cc s (Event.fiberObs o) = { s with fiberMap := s.fiberMap ++ [(o.hash, o)] } := by
  simp [step, hs]

theorem step_otherObs_isSome (cc : Bool) (s : IState) (o : Obs)
    (hs : (alookup s.otherMap o.hash).isSome = true) :
    step cc s (Event.otherObs o) = { s with dups := s.dups ++ [(Source.other, o.hash)] } := by
  simp [step, hs]

theorem step_otherObs_isNone (cc : Bool) (s : IState) (o : Obs)
    (hs : (alookup s.otherMap o.hash).isSome = false) :
    step cc s (Event.otherObs o) = { s with otherMap := s.otherMap ++ [(o.hash, o)] } := by
  simp [step, hs]

theorem step_payload_fiberMap (cc : Bool) (s : IState) (txs : List Nat) :
    (step cc s (Event.payload txs)).fiberMap = s.fiberMap := by
  cases cc <;> simp [step]

theorem step_payload_otherMap (cc : Bool) (s : IState) (txs : List Nat) :
    (step cc s (Event.payload txs)).otherMap = s.otherMap := by
  cases cc <;> simp [step]

theorem step_payload_dups (cc : Bool) (s : IState) (txs : List Nat) :
    (step cc s (Event.payload txs)).dups = s.dups := by
  cases cc <;> simp [step]

theorem foldl_step_fiber_lookup (cc : Bool) :
    ∀ (es : List Event) (s : IState) (h : Nat),
      alookup (es.foldl (step cc) s).fiberMap h
        = optOr (alookup s.fiberMap h) (firstFiber es h) := by
  intro es
  induction es with
  | nil =>
    intro s h
    simp [firstFiber, optOr_none]
  | cons e rest ih =>
    intro s h
    rw [List.foldl_cons]
    cases e with
    | fiberObs o =>
      rw [firstFiber_cons_fiber, ← optOr_assoc]
      cases hs : (alookup s.fiberMap o.hash).isSome with
      | true =>
        rw [step_fiberObs_isSome cc s o hs, ih]
        by_cases hh : o.hash = h
        · obtain ⟨v, hv⟩ := Option.isSome_iff_exists.mp hs
          subst hh
          simp [hv, optOr]
        · simp [hh, optOr_none]
      | false =>
        rw [step_fiberObs_isNone cc s o hs, ih]
        simp [alookup_append_single]
    | otherObs o =>
      rw [firstFiber_cons_other]
      cases hs : (alookup s.otherMap o.hash).isSome with
      | true => rw [step_otherObs_isSome cc s o hs, ih]
      | false => rw [step_otherObs_isNone cc s o hs, ih]
    | payload txs =>
      rw [firstFiber_cons_payload, ih]
      rw [show (step cc s (Event.payload txs)).fiberMap = s.fiberMap from
        step_payload_fiberMap cc s txs]

theorem foldl_step_other_lookup (cc : Bool) :
    ∀ (es : List Event) (s : IState) (h : Nat),
      alookup (es.foldl (step cc) s).otherMap h
        = optOr (alookup s.otherMap h) (firstOther es h) := by
  intro es
  induction es with
  | nil =>
    intro s h
    simp [firstOther, optOr_none]
  | cons e rest ih =>
    intro s h
    rw [List.foldl_cons]
    cases e with
    | otherObs o =>
      rw [firstOther_cons_other, ← optOr_assoc]
      cases hs : (alookup s.otherMap o.hash).isSome with
      | true =>
        rw [step_otherObs_isSome cc s o hs, ih]
        by_cases hh : o.hash = h
        · obtain ⟨v, hv⟩ := Option.isSome_iff_exists.mp hs
          subst hh
          simp [hv, optOr]
        · simp [hh, optOr_none]
      | false =>
        rw [step_otherObs_isNone cc s o hs, ih]
        simp [alookup_append_single]
    | fiberObs o =>
      rw [firstOther_cons_fiber]
      cases hs : (alookup s.fiberMap o.hash).isSome with
      | true => rw [step_fiberObs_isSome cc s o hs, ih]
      | false => rw [step_fiberObs_isNone cc s o hs, ih]
    | payload txs =>
      rw [firstOther_cons_payload, ih]
      rw [show (step cc s (Event.payload txs)).otherMap = s.otherMap from
        step_payload_otherMap cc s txs]

theorem countP_append_pair (ds : List (Source × Nat)) (src : Source) (h : Nat)
    (p : Source × Nat) :
    (ds ++ [p]).countP (fun q => decide (q = (src, h)))
      = ds.countP (fun q => decide (q = (src, h))) + (if p = (src, h) then 1 else 0) := by
  by_cases hp : p = (src, h) <;>
    simp [List.countP_append, List.countP_cons, hp]

theorem isSome_false_eq_none {α : Type} {a : Option α} (h : a.isSome = false) :
    a = none := by
  cases a
  · rfl
  · simp at h

theorem dupCount_step_payload (cc : Bool) (s : IState) (txs : List Nat)
    (src : Source) (h : Nat) :
    dupCount (step cc s (Event.payload txs)) src h = dupCount s src h := by
  cases cc <;> simp [step, dupCount]

theorem foldl_step_fiber_dups (cc : Bool) :
    ∀ (es : List Event) (s : IState) (h : Nat),
      dupCount (es.foldl (step cc) s) Source.fiber h
        = dupCount s Source.fiber h +
          (if (alookup s.fiberMap h).isSome then fiberEventCount es h
           else fiberEventCount es h - 1) := by
  intro es
  induction es with
  | nil =>
    intro s h
    cases hs : (alookup s.fiberMap h).isSome <;> simp [fiberEventCount]
  | cons e rest ih =>
    intro s h
    rw [List.foldl_cons]
    cases e with
    | fiberObs o =>
      have hcount : fiberEventCount (Event.fiberObs o :: rest) h
          = fiberEventCount rest h + (if o.hash = h then 1 else 0) := by
        by_cases hh : o.hash = h <;>
          simp [fiberEventCount, List.countP_cons, hh]
      cases hs : (alookup s.fiberMap o.hash).isSome with
      | true =>
        rw [step_fiberObs_isSome cc s o hs, ih]
        have hdups : dupCount { s with dups := s.dups ++ [(Source.fiber, o.hash)] }
            Source.fiber h
            = dupCount s Source.fiber h + (if o.hash = h then 1 else 0) := by
          simp only [dupCount]
          rw [countP_append_pair]
          by_cases hh : o.hash = h <;> simp [hh]
        rw [show ({ s with dups := s.dups ++ [(Source.fiber, o.hash)] } : IState).fiberMap
            = s.fiberMap from rfl]
        rw [hdups, hcount]
        by_cases hh : o.hash = h
        · subst hh
          simp [hs]
          omega
        · simp [hh]
      | false =>
        rw [step_fiberObs_isNone cc s o hs, ih]
        have hn := isSome_false_eq_none hs
        rw [show dupCount { s with fiberMap := s.fiberMap ++ [(o.hash, o)] }
            Source.fiber h = dupCount s Source.fiber h from rfl]
        rw [show ({ s with fiberMap := s.fiberMap ++ [(o.hash, o)] } : IState).fiberMap
            = s.fiberMap ++ [(o.hash, o)] from rfl]
        rw [alookup_append_single, hcount]
        by_cases hh : o.hash = h
        · subst hh
          simp [hn, optOr]
        · simp only [if_neg hh, optOr_none]
          simp [hh]
    | otherObs o =>
      have hcount : fiberEventCount (Event.otherObs o :: rest) h = fiberEventCount rest h := by
        simp [fiberEventCount, List.countP_cons]
      cases hs : (alookup s.otherMap o.hash).isSome with
      | true =>
        rw [step_otherObs_isSome cc s o hs, ih]
        have hdups : dupCount { s with dups := s.dups ++ [(Source.other, o.hash)] }
            Source.fiber h = dupCount s Source.fiber h := by
          simp only [dupCount]
          rw [countP_append_pair]
          simp
        rw [hdups, hcount]
      | false =>
        rw [step_otherObs_isNone cc s o hs, ih, hcount]
        rfl
    | payload txs =>
      have hcount : fiberEventCount (Event.payload txs :: rest) h = fiberEventCount rest h := by
        simp [fiberEventCount, List.countP_cons]
      rw [ih, hcount, dupCount_step_payload, step_payload_fiberMap]

theorem foldl_step_other_dups (cc : Bool) :
    ∀ (es : List Event) (s : IState) (h : Nat),
      dupCount (es.foldl (step cc) s) Source.other h
        = dupCount s Source.other h +
          (if (alookup s.otherMap h).isSome then otherEventCount es h
           else otherEventCount es h - 1) := by
  intro es
  induction es with
  | nil =>
    intro s h
    cases hs : (alookup s.otherMap h).isSome <;> simp [otherEventCount]
  | cons e rest ih =>
    intro s h
    rw [List.foldl_cons]
    cases e with
    | otherObs o =>
      have hcount : otherEventCount (Event.otherObs o :: rest) h
          = otherEventCount rest h + (if o.hash = h then 1 else 0) := by
        by_cases hh : o.hash = h <;>
          simp [otherEventCount, List.countP_cons, hh]
      cases hs : (alookup s.otherMap o.hash).isSome with
      | true =>
        rw [step_otherObs_isSome cc s o hs, ih]
        have hdups : dupCount { s with dups := s.dups ++ [(Source.other, o.hash)] }
            Source.other h
            = dupCount s Source.other h + (if o.hash = h then 1 else 0) := by
          simp only [dupCount]
          rw [countP_append_pair]
          by_cases hh : o.hash = h <;> simp [hh]
        rw [show ({ s with dups := s.dups ++ [(Source.other, o.hash)] } : IState).otherMap
            = s.otherMap from rfl]
        rw [hdups, hcount]
        by_cases hh : o.hash = h
        · subst hh
          simp [hs]
          omega
        · simp [hh]
      | false =>
        rw [step_otherObs_isNone cc s o hs, ih]
        have hn := isSome_false_eq_none hs
        rw [show dupCount { s with otherMap := s.otherMap ++ [(o.hash, o)] }
            Source.other h = dupCount s Source.other h from rfl]
        rw [show ({ s with otherMap := s.otherMap ++ [(o.hash, o)] } : IState).otherMap
            = s.otherMap ++ [(o.hash, o)] from rfl]
        rw [alookup_append_single, hcount]
        by_cases hh : o.hash = h
        · subst hh
          simp [hn, optOr]
        · simp only [if_neg hh, optOr_none]
          simp [hh]
    | fiberObs o =>
      have hcount : otherEventCount (Event.fiberObs o :: rest) h = otherEventCount rest h := by
        simp [otherEventCount, List.countP_cons]
      cases hs : (alookup s.fiberMap o.hash).isSome with
      | true =>
        rw [step_fiberObs_isSome cc s o hs, ih]
        have hdups : dupCount { s with dups := s.dups ++ [(Source.fiber, o.hash)] }
            Source.other h = dupCount s Source.other h := by
          simp only [dupCount]
          rw [countP_append_pair]
          simp
        rw [hdups, hcount]
      | false =>
        rw [step_fiberObs_isNone cc s o hs, ih, hcount]
        rfl
    | payload txs =>
      have hcount : otherEventCount (Event.payload txs :: rest) h = otherEventCount rest h := by
        simp [otherEventCount, List.countP_cons]
      rw [ih, hcount, dupCount_step_payload, step_payload_otherMap]

theorem nodup_keys_append {α : Type} (m : List (Nat × α)) (k : Nat) (v : α)
    (hm : (m.map Prod.fst).Nodup) (hk : alookup m k = none) :
    (((m ++ [(k, v)]).map Prod.fst).Nodup) := by
  rw [List.map_append]
  simp only [List.map_cons, List.map_nil]
  rw [List.nodup_append]
  refine ⟨hm, by simp, ?_⟩
  intro a ha hb
  simp at hb
  rw [hb] at ha
  exact (alookup_eq_none_iff m k).mp hk ha

theorem foldl_step_fiber_nodup (cc : Bool) :
    ∀ (es : List Event) (s : IState),
      (s.fiberMap.map Prod.fst).Nodup →
      (((es.foldl (step cc) s).fiberMap).map Prod.fst).Nodup := by
  intro es
  induction es with
  | nil => intro s hs; exact hs
  | cons e rest ih =>
    intro s hnd
    rw [List.foldl_cons]
    cases e with
    | fiberObs o =>
      cases hs : (alookup s.fiberMap o.hash).isSome with
      | true =>
        rw [step_fiberObs_isSome cc s o hs]
        exact ih _ hnd
      | false =>
        rw [step_fiberObs_isNone cc s o hs]
        exact ih _ (nodup_keys_append s.fiberMap o.hash o hnd (isSome_false_eq_none hs))
    | otherObs o =>
      cases hs : (alookup s.otherMap o.hash).isSome with
      | true =>
        rw [step_otherObs_isSome cc s o hs]
        exact ih _ hnd
      | false =>
        rw [step_otherObs_isNone cc s o hs]
        exact ih _ hnd
    | payload txs =>
      apply ih
      rw [step_payload_fiberMap]
      exact hnd

theorem foldl_step_other_nodup (cc : Bool) :
    ∀ (es : List Event) (s : IState),
      (s.otherMap.map Prod.fst).Nodup →
      (((es.foldl (step cc) s).otherMap).map Prod.fst).Nodup := by
  intro es
  induction es with
  | nil => intro s hs; exact hs
  | cons e rest ih =>
    intro s hnd
    rw [List.foldl_cons]
    cases e with
    | otherObs o =>
      cases hs : (alookup s.otherMap o.hash).isSome with
      | true =>
        rw [step_otherObs_isSome cc s o hs]
        exact ih _ hnd
      | false =>
        rw [step_otherObs_isNone cc s o hs]
        exact ih _ (nodup_keys_append s.otherMap o.hash o hnd (isSome_false_eq_none hs))
    | fiberObs o =>
      cases hs : (alookup s.fiberMap o.hash).isSome with
      | true =>
        rw [step_fiberObs_isSome cc s o hs]
        exact ih _ hnd
      | false =>
        rw [step_fiberObs_isNone cc s o hs]
        exact ih _ hnd
    | payload txs =>
      apply ih
      rw [step_payload_otherMap]
      exact hnd

theorem runInterval_fiber_lookup (cc : Bool) (es : List Event) (h : Nat) :
    alookup (runIntervalState cc es).fiberMap h = firstFiber es h := by
  rw [runIntervalState, foldl_step_fiber_lookup]
  simp [initState, alookup, optOr]

theorem runInterval_other_lookup (cc : Bool) (es : List Event) (h : Nat) :
    alookup (runIntervalState cc es).otherMap h = firstOther es h := by
  rw [runIntervalState, foldl_step_other_lookup]
  simp [initState, alookup, optOr]

/-- The fiber observations of an event list, in delivery order. -/
def fiberObsList (es : List Event) : List Obs :=
  es.filterMap fun e =>
    match e with
    | .fiberObs o => some o
    | _ => none

/-- The other-source observations of an event list, in delivery order. -/
def otherObsList (es : List Event) : List Obs :=
  es.filterMap fun e =>
    match e with
    | .otherObs o => some o
    | _ => none

theorem firstFiber_eq_head_filter (h : Nat) :
    ∀ es : List Event,
      firstFiber es h = ((fiberObsList es).filter fun o => decide (o.hash = h)).head? := by
  intro es
  induction es with
  | nil => rfl
  | cons e rest ih =>
    cases e with
    | fiberObs o =>
      by_cases hh : o.hash = h
      · rw [firstFiber_cons_fiber]
        simp [fiberObsList, List.filterMap_cons, hh, optOr, List.filter_cons]
      · rw [firstFiber_cons_fiber]
        simp only [if_neg hh, optOr]
        rw [ih]
        simp [fiberObsList, List.filterMap_cons, List.filter_cons, hh]
    | otherObs o =>
      rw [firstFiber_cons_other, ih]
      simp [fiberObsList, List.filterMap_cons]
    | payload txs =>
      rw [firstFiber_cons_payload, ih]
      simp [fiberObsList, List.filterMap_cons]

theorem firstOther_eq_head_filter (h : Nat) :
    ∀ es : List Event,
      firstOther es h = ((otherObsList es).filter fun o => decide (o.hash = h)).head? := by
  intro es
  induction es with
  | nil => rfl
  | cons e rest ih =>
    cases e with
    | otherObs o =>
      by_cases hh : o.hash = h
      · rw [firstOther_cons_other]
        simp [otherObsList, List.filterMap_cons, hh, optOr, List.filter_cons]
      · rw [firstOther_cons_other]
        simp only [if_neg hh, optOr]
        rw [ih]
        simp [otherObsList, List.filterMap_cons, List.filter_cons, hh]
    | fiberObs o =>
      rw [firstOther_cons_fiber, ih]
      simp [otherObsList, List.filterMap_cons]
    | payload txs =>
      rw [firstOther_cons_payload, ih]
      simp [otherObsList, List.filterMap_cons]

theorem fiberHashes_eq_map (es : List Event) :
    fiberHashes es = (fiberObsList es).map Obs.hash := by
  induction es with
  | nil => rfl
  | cons e rest ih =>
    cases e <;> simp [fiberHashes, fiberObsList, List.filterMap_cons, ih] <;>
      simp [fiberHashes, fiberObsList] at ih <;> exact ih

theorem otherHashes_eq_map (es : List Event) :
    otherHashes es = (otherObsList es).map Obs.hash := by
  induction es with
  | nil => rfl
  | cons e rest ih =>
    cases e <;> simp [otherHashes, otherObsList, List.filterMap_cons, ih] <;>
      simp [otherHashes, otherObsList] at ih <;> exact ih

theorem filter_len_le_one {α : Type} (f : α → Nat) (h : Nat) :
    ∀ l : List α, ((l.map f).Nodup) →
      ((l.filter fun o => decide (f o = h)).length ≤ 1) := by
  intro l
  induction l with
  | nil => simp
  | cons a l ih =>
    intro hnd
    rw [List.map_cons, List.nodup_cons] at hnd
    obtain ⟨hna, hnd⟩ := hnd
    by_cases hf : f a = h
    · rw [List.filter_cons_of_pos (by simp [hf])]
      have hnil : (l.filter fun o => decide (f o = h)) = [] := by
        apply List.eq_nil_iff_forall_not_mem.mpr
        intro b hb
        rw [List.mem_filter] at hb
        obtain ⟨hbl, hbh⟩ := hb
        simp at hbh
        exact hna (List.mem_map.mpr ⟨b, hbl, by rw [hbh, hf]⟩)
      simp [hnil]
    · rw [List.filter_cons_of_neg (by simp [hf])]
      exact ih hnd

theorem perm_len_le_one_eq {α : Type} {l1 l2 : List α}
    (hp : l1.Perm l2) (hl : l1.length ≤ 1) : l1 = l2 := by
  match l1, hl with
  | [], _ => exact (hp.symm.eq_nil).symm
  | [a], _ => exact (List.perm_singleton.mp hp.symm).symm

/-- Claim C4. Within one interval, each source's hash map holds at most one
entry per hash (the final key lists are duplicate-free); the entry for a
hash is the first observation that arrived for that (source, hash) pair,
stored with its full timestamp and metadata record; and every later
arrival of the same hash on the same source leaves the map unchanged and
only appends one duplicate diagnostic, so the diagnostics for a
(source, hash) pair number exactly one less than its arrivals (and zero
when the hash arrived at most once).  The select-loop body is total: no
event produces an error. -/
theorem runInterval_dedup_first_wins (cc : Bool) (es : List Event) (h : Nat) :
    (((runIntervalState cc es).fiberMap).map Prod.fst).Nodup ∧
    (((runIntervalState cc es).otherMap).map Prod.fst).Nodup ∧
    alookup (runIntervalState cc es).fiberMap h = firstFiber es h ∧
    alookup (runIntervalState cc es).otherMap h = firstOther es h ∧
    dupCount (runIntervalState cc es) Source.fiber h = fiberEventCount es h - 1 ∧
    dupCount (runIntervalState cc es) Source.other h = otherEventCount es h - 1 := by
  refine ⟨?_, ?_, ?_, ?_, ?_, ?_⟩
  · exact foldl_step_fiber_nodup cc es initState (by simp [initState])
  · exact foldl_step_other_nodup cc es initState (by simp [initState])
  · rw [runIntervalState, foldl_step_fiber_lookup]
    simp [initState, alookup, optOr]
  · rw [runIntervalState, foldl_step_other_lookup]
    simp [initState, alookup, optOr]
  · rw [runIntervalState, foldl_step_fiber_dups]
    simp [initState, alookup, dupCount]
  · rw [runIntervalState, foldl_step_other_dups]
    simp [initState, alookup, dupCount]

/-- Claim C6. Feeding the same set of observation events to the reconciler
loop in any interleaving order produces identical per-source hash maps
at interval close, provided each hash arrives at most once per source:
for every hash, the final fiber map and other map of the two runs agree
(Go maps are unordered, so lookup agreement at every key is map
identity). -/
theorem runInterval_perm_invariant (cc : Bool) (es es2 : List Event)
    (hp : es.Perm es2) (hf : (fiberHashes es).Nodup) (ho : (otherHashes es).Nodup)
    (h : Nat) :
    alookup (runIntervalState cc es).fiberMap h
      = alookup (runIntervalState cc es2).fiberMap h ∧
    alookup (runIntervalState cc es).otherMap h
      = alookup (runIntervalState cc es2).otherMap h := by
  constructor
  · rw [runInterval_fiber_lookup, runInterval_fiber_lookup,
      firstFiber_eq_head_filter, firstFiber_eq_head_filter]
    have hperm : ((fiberObsList es).filter fun o => decide (o.hash = h)).Perm
        ((fiberObsList es2).filter fun o => decide (o.hash = h)) :=
      (hp.filterMap _).filter _
    have hlen := filter_len_le_one Obs.hash h (fiberObsList es)
      (by rw [← fiberHashes_eq_map]; exact hf)
    rw [perm_len_le_one_eq hperm hlen]
  · rw [runInterval_other_lookup, runInterval_other_lookup,
      firstOther_eq_head_filter, firstOther_eq_head_filter]
    have hperm : ((otherObsList es).filter fun o => decide (o.hash = h)).Perm
        ((otherObsList es2).filter fun o => decide (o.hash = h)) :=
      (hp.filterMap _).filter _
    have hlen := filter_len_le_one Obs.hash h (otherObsList es)
      (by rw [← otherHashes_eq_map]; exact ho)
    rw [perm_len_le_one_eq hperm hlen]

/-- A concrete fiber observation used by the order-independence witness. -/
def obsA : Obs := ⟨1, 100, "a", "b", 3⟩

/-- A concrete other-source observation used by the order-independence
witness. -/
def obsB : Obs := ⟨2, 200, "c", "d", 4⟩

/-- One delivery order of the two witness observations. -/
def esW : List Event := [Event.fiberObs obsA, Event.otherObs obsB]

/-- The opposite delivery order of the two witness observations. -/
def esW2 : List Event := [Event.otherObs obsB, Event.fiberObs obsA]

/-- Witness for the order-independence theorem at a concrete pair of
interleavings. -/
theorem runInterval_perm_invariant_witness :
    esW.Perm esW2 ∧
      alookup (runIntervalState true esW).fiberMap 1
        = alookup (runIntervalState true esW2).fiberMap 1 := by
  have hperm : esW.Perm esW2 :=
    List.Perm.swap (Event.otherObs obsB) (Event.fiberObs obsA) []
  exact ⟨hperm,
    (runInterval_perm_invariant true esW esW2 hperm (by decide) (by decide) 1).1⟩

theorem mem_addTruth (t : List Nat) (x h : Nat) :
    h ∈ addTruth t x ↔ h ∈ t ∨ h = x := by
  by_cases hx : x ∈ t
  · simp only [addTruth, if_pos hx]
    constructor
    · exact Or.inl
    · rintro (hh | hh)
      · exact hh
      · rw [hh]; exact hx
  · simp [addTruth, if_neg hx]

theorem mem_foldl_addTruth (h : Nat) :
    ∀ (txs : List Nat) (t : List Nat),
      h ∈ txs.foldl addTruth t ↔ h ∈ t ∨ h ∈ txs := by
  intro txs
  induction txs with
  | nil => simp
  | cons x rest ih =>
    intro t
    rw [List.foldl_cons, ih, mem_addTruth]
    simp [or_assoc]

theorem foldl_step_truth_false :
    ∀ (es : List Event) (s : IState),
      (es.foldl (step false) s).truthList = s.truthList := by
  intro es
  induction es with
  | nil => intro s; rfl
  | cons e rest ih =>
    intro s
    rw [List.foldl_cons]
    cases e with
    | fiberObs o =>
      cases hs : (alookup s.fiberMap o.hash).isSome with
      | true => rw [step_fiberObs_isSome false s o hs, ih]
      | false => rw [step_fiberObs_isNone false s o hs, ih]
    | otherObs o =>
      cases hs : (alookup s.otherMap o.hash).isSome with
      | true => rw [step_otherObs_isSome false s o hs, ih]
      | false => rw [step_otherObs_isNone false s o hs, ih]
    | payload txs =>
      rw [show step false s (Event.payload txs) = s from by simp [step], ih]

theorem foldl_step_truth_mem (h : Nat) :
    ∀ (es : List Event) (s : IState),
      h ∈ (es.foldl (step true) s).truthList ↔
        h ∈ s.truthList ∨ h ∈ payloadHashes es := by
  intro es
  induction es with
  | nil => intro s; simp [payloadHashes]
  | cons e rest ih =>
    intro s
    rw [List.foldl_cons]
    cases e with
    | fiberObs o =>
      have hph : payloadHashes (Event.fiberObs o :: rest) = payloadHashes rest := by
        simp [payloadHashes, List.filterMap_cons]
      rw [hph]
      cases hs : (alookup s.fiberMap o.hash).isSome with
      | true => rw [step_fiberObs_isSome true s o hs, ih]
      | false => rw [step_fiberObs_isNone true s o hs, ih]
    | otherObs o =>
      have hph : payloadHashes (Event.otherObs o :: rest) = payloadHashes rest := by
        simp [payloadHashes, List.filterMap_cons]
      rw [hph]
      cases hs : (alookup s.otherMap o.hash).isSome with
      | true => rw [step_otherObs_isSome true s o hs, ih]
      | false => rw [step_otherObs_isNone true s o hs, ih]
    | payload txs =>
      have hph : payloadHashes (Event.payload txs :: rest) = txs ++ payloadHashes rest := by
        simp [payloadHashes, List.filterMap_cons]
      rw [hph]
      rw [show step true s (Event.payload txs)
          = { s with truthList := txs.foldl addTruth s.truthList } from by simp [step]]
      rw [ih]
      rw [show ({ s with truthList := txs.foldl addTruth s.truthList } : IState).truthList
          = txs.foldl addTruth s.truthList from rfl]
      rw [mem_foldl_addTruth]
      simp [or_assoc]

/-- Claim C1 (amended). The comparison universe iterated by
`processIntervalResults` is the truth map in both modes: when cross-check
is enabled it contains exactly the hashes confirmed by payload events,
and when cross-check is disabled it stays empty — so the universe is
never the fiber map's key set, and with cross-check disabled the
classification loop produces no differences, rows or warnings at all. -/
theorem universe_is_truth_set :
    (∀ (es : List Event) (h : Nat),
        h ∈ (runIntervalState true es).truthList ↔ h ∈ payloadHashes es) ∧
    (∀ es : List Event, (runIntervalState false es).truthList = []) ∧
    (∀ (bench : String) (sp lm : Bool) (fm om : List (Nat × Obs)),
        processLoop bench sp lm fm om [] = ([], [], [])) := by
  refine ⟨?_, ?_, ?_⟩
  · intro es h
    rw [runIntervalState, foldl_step_truth_mem]
    simp [initState]
  · intro es
    rw [runIntervalState, foldl_step_truth_false]
    rfl
  · intro bench sp lm fm om
    rfl

/-- The single fiber observation of the C1 counterexample run. -/
def cexObs : Obs := ⟨1, 5, "", "", 0⟩

/-- The event list of the C1 counterexample run: one fiber observation,
cross-check disabled. -/
def cexEvents : List Event := [Event.fiberObs cexObs]

/-- Claim C1 (counterexample). With cross-check disabled and a hash
observed by the primary (fiber) source, the universe iterated by
`processIntervalResults` is empty — not the fiber map's key set `[1]` —
and the fiber-seen hash produces no classified result of any kind. -/
theorem universe_not_fiber_keys_cex :
    (runIntervalState false cexEvents).truthList = [] ∧
    (runIntervalState false cexEvents).fiberMap.map Prod.fst = [1] ∧
    (runIntervalState false cexEvents).truthList ≠
      (runIntervalState false cexEvents).fiberMap.map Prod.fst ∧
    processLoop "b" true true (runIntervalState false cexEvents).fiberMap
      (runIntervalState false cexEvents).otherMap
      (runIntervalState false cexEvents).truthList = ([], [], []) := by
  refine ⟨rfl, rfl, by decide, rfl⟩

/-- Claim C5 (amended). Over the comparison universe, the classification
loop of `processIntervalResults` assigns every hash seen by at least one
source exactly one of the three classes (the `classify` value is `some`
of a single class precisely when a source saw it), while a universe hash
seen by neither source is skipped without any output; the differences
list contains exactly the both-saw millisecond differences, and the sink
rows are exactly one row per seen universe hash, with the missed side's
timestamp and the difference zeroed for one-sided hashes. -/
theorem classification_partition (bench : String) (lm : Bool)
    (fm om : List (Nat × Obs)) (tk : List Nat) :
    (processLoop bench true lm fm om tk).1
      = tk.filterMap (fun h =>
          match alookup fm h, alookup om h with
          | some fo, some oo => some (milliDiff (oo.timestamp - fo.timestamp))
          | _, _ => none) ∧
    (processLoop bench true lm fm om tk).2.1
      = tk.filterMap (fun h =>
          match alookup fm h, alookup om h with
          | some fo, some oo =>
            some ⟨h, fo.timestamp, oo.timestamp, oo.timestamp - fo.timestamp,
                  bench, fo.fromAddr, fo.toAddr, fo.callDataSize⟩
          | some fo, none =>
            some ⟨h, fo.timestamp, 0, 0, bench, fo.fromAddr, fo.toAddr, fo.callDataSize⟩
          | none, some oo =>
            some ⟨h, 0, oo.timestamp, 0, bench, oo.fromAddr, oo.toAddr, oo.callDataSize⟩
          | none, none => none) ∧
    (∀ h : Nat, classify fm om h = none ↔
        (alookup fm h = none ∧ alookup om h = none)) := by
  refine ⟨?_, ?_, ?_⟩
  · induction tk with
    | nil => rfl
    | cons h rest ih =>
      rw [List.filterMap_cons]
      cases hf : alookup fm h <;> cases ho : alookup om h <;>
        simp [processLoop, hf, ho, ih]
  · induction tk with
    | nil => rfl
    | cons h rest ih =>
      rw [List.filterMap_cons]
      cases hf : alookup fm h <;> cases ho : alookup om h <;>
        simp [processLoop, hf, ho, ih]
  · intro h
    cases hf : alookup fm h <;> cases ho : alookup om h <;> simp [classify, hf, ho]

/-- The fiber map of the C5 counterexample (hash 1 only). -/
def cexFm : List (Nat × Obs) := [(1, ⟨1, 10, "", "", 0⟩)]

/-- The other-source map of the C5 counterexample (hash 2 only). -/
def cexOm : List (Nat × Obs) := [(2, ⟨2, 20, "", "", 0⟩)]

/-- Claim C5 (counterexample). Hash 7 is in the comparison universe but was
seen by neither source: it is assigned none of the three classes, and the
loop emits no difference, no sink row and no warning for it — the claim's
"exactly one of the three classes" fails for it. -/
theorem classification_skips_unseen_cex :
    classify cexFm cexOm 7 = none ∧
    processLoop "b" true true cexFm cexOm [7] = ([], [], []) :=
  ⟨rfl, rfl⟩

/-- The concrete sink kinds `setupSink` can construct (`clickhouse` and
`csv`); `none` and `stdout` yield no sink at all. -/
inductive SinkKind where
  | clickhouse
  | csv
deriving DecidableEq

/-- Go `setupSink` (`main.go`): `"none"` and `"stdout"` return a nil sink
with a nil error; `"clickhouse"` and `"csv"` construct their sink (the
fallible constructor's outcome is passed in as `chInit` / `csvInit`);
any other string is an `invalid sink` error. -/
def setupSink (sinkCfg : String) (chInit csvInit : Except String SinkKind) :
    Except String (Option SinkKind) :=
  if sinkCfg = "none" then .ok none
  else if sinkCfg = "stdout" then .ok none
  else if sinkCfg = "clickhouse" then chInit.map some
  else if sinkCfg = "csv" then csvInit.map some
  else .error ("invalid sink: " ++ sinkCfg)

/-- The default value of the `--sink` CLI flag (`Value: "none"`). -/
def defaultSinkFlag : String := "none"

/-- Go `stats, err := b.runInterval(...)` in `Run`: on error the interval
yields the Go zero-value stats row (logged, not skipped). -/
def statsOrEmpty (res : Except StatsErr ObservationStatsRow) : ObservationStatsRow :=
  match res with
  | .ok r => r
  | .error _ => emptyStatsRow

/-- Go `Run` stamps the interval row with its start time, end time and the
benchmark id before recording it. -/
def rowWithMeta (r : ObservationStatsRow) (t0 t1 : Int) (id : String) :
    ObservationStatsRow :=
  { r with startTime := t0, endTime := t1, benchmarkID := id }

/-- The observable outcome of the tail of one `Run` iteration: either the
stats row handed to `sink.RecordStats`, or the run-time panic raised by
calling `RecordStats` on a nil `Sink` interface value. -/
inductive EmitResult where
  | recorded (row : ObservationStatsRow)
  | nilPanic
deriving DecidableEq

/-- The tail of one `Run` loop iteration (`main.go`): regardless of
whether `runInterval` returned an error, the (possibly zero) stats row
is stamped and `b.sink.RecordStats(&stats)` is called unconditionally —
which panics when the sink is the nil interface value. -/
def intervalEmit (sink : Option SinkKind) (res : Except StatsErr ObservationStatsRow)
    (t0 t1 : Int) (id : String) : EmitResult :=
  match sink with
  | none => .nilPanic
  | some _ => .recorded (rowWithMeta (statsOrEmpty res) t0 t1 id)

/-- The `Run` interval loop (`main.go`), driven by the per-interval
results and time stamps: each iteration emits its row and the loop
continues to the next interval; a nil-sink panic aborts the process. -/
def runLoop (sink : Option SinkKind) (id : String) :
    List (Except StatsErr ObservationStatsRow × Int × Int) → List EmitResult
  | [] => []
  | (res, t0, t1) :: rest =>
    match intervalEmit sink res t0 t1 id with
    | .nilPanic => [.nilPanic]
    | r => r :: runLoop sink id rest

theorem countP_pos_add_not (l : List ℚ) :
    l.countP (fun d => decide (0 < d)) + l.countP (fun d => !(decide (0 < d)))
      = l.length := by
  induction l with
  | nil => rfl
  | cons a l ih =>
    by_cases hd : (0 : ℚ) < a <;> simp [List.countP_cons, hd] <;> omega

theorem exceptBindOk {α β : Type} {x : Except StatsErr α}
    {f : α → Except StatsErr β} {b : β}
    (h : (x >>= f) = Except.ok b) : ∃ a, x = Except.ok a ∧ f a = Except.ok b := by
  cases x with
  | error e => simp [Bind.bind, Except.bind] at h
  | ok a =>
    refine ⟨a, rfl, ?_⟩
    simpa [Bind.bind, Except.bind] using h

/-- Claim C3 (amended). Whenever `buildObservationStats` succeeds, the
returned row's `FiberWon` field equals `count(d > 0) / len(D)` — a zero
difference counts as not a fiber win; the same win-ratio formula
(`printStats`) evaluates to `1/3` on `[1, -1, 0]`.  (On `[1, -1, 0]`
itself `buildObservationStats` returns a percentile bounds error, see
the counterexample, so no row carries that ratio.) -/
theorem fiberWon_is_pos_share :
    (∀ (D : List ℚ) (row : ObservationStatsRow),
        buildObservationStats D = Except.ok row →
        row.fiberWon = (D.countP (fun d => decide (0 < d)) : ℚ) / (D.length : ℚ)) ∧
    printStatsWonFrac [1, -1, 0] = 1 / 3 := by
  constructor
  · intro D row h
    simp only [buildObservationStats] at h
    obtain ⟨mean, hm, h⟩ := exceptBindOk h
    obtain ⟨mn, h2, h⟩ := exceptBindOk h
    obtain ⟨mx, h3, h⟩ := exceptBindOk h
    obtain ⟨q1, h4, h⟩ := exceptBindOk h
    obtain ⟨q5, h5, h⟩ := exceptBindOk h
    obtain ⟨q10, h6, h⟩ := exceptBindOk h
    obtain ⟨q15, h7, h⟩ := exceptBindOk h
    obtain ⟨q20, h8, h⟩ := exceptBindOk h
    obtain ⟨q25, h9, h⟩ := exceptBindOk h
    obtain ⟨q30, h10, h⟩ := exceptBindOk h
    obtain ⟨q35, h11, h⟩ := exceptBindOk h
    obtain ⟨q40, h12, h⟩ := exceptBindOk h
    obtain ⟨q45, h13, h⟩ := exceptBindOk h
    obtain ⟨q50, h14, h⟩ := exceptBindOk h
    obtain ⟨q55, h15, h⟩ := exceptBindOk h
    obtain ⟨q60, h16, h⟩ := exceptBindOk h
    obtain ⟨q65, h17, h⟩ := exceptBindOk h
    obtain ⟨q70, h18, h⟩ := exceptBindOk h
    obtain ⟨q75, h19, h⟩ := exceptBindOk h
    obtain ⟨q80, h20, h⟩ := exceptBindOk h
    obtain ⟨q85, h21, h⟩ := exceptBindOk h
    obtain ⟨q90, h22, h⟩ := exceptBindOk h
    obtain ⟨q95, h23, h⟩ := exceptBindOk h
    obtain ⟨q99, h24, h⟩ := exceptBindOk h
    simp only [pure, Except.pure, Except.ok.injEq] at h
    subst h
    show ((D.countP fun d => decide (0 < d) : ℚ)) /
        ((D.countP fun d => decide (0 < d) : ℚ) +
         (D.countP fun d => !(decide (0 < d)) : ℚ))
      = (D.countP (fun d => decide (0 < d)) : ℚ) / (D.length : ℚ)
    congr 1
    rw [← Nat.cast_add, countP_pos_add_not]
  · show ((List.countP (fun d => decide (0 < d)) [1, -1, 0] : ℚ)) /
        ((List.countP (fun d => decide (0 < d)) [1, -1, 0] : ℚ) +
         (List.countP (fun d => !(decide (0 < d))) [1, -1, 0] : ℚ)) = 1 / 3
    norm_num [List.countP_cons]

theorem bind_ok {α β : Type} (a : α) (f : α → Except StatsErr β) :
    (Except.ok a) >>= f = f a := rfl

theorem bind_error {α β : Type} (e : StatsErr) (f : α → Except StatsErr β) :
    (Except.error e : Except StatsErr α) >>= f = Except.error e := rfl

theorem statsPercentile_single (x p : ℚ) : statsPercentile [x] p = .ok x := by
  simp [statsPercentile]

theorem buildStats_single_isOk (x : ℚ) : (buildObservationStats [x]).isOk = true := rfl

/-- The row produced by `buildObservationStats [5]`, obtained by direct
evaluation of the aggregation. -/
def row5raw : ObservationStatsRow :=
  (buildObservationStats [(5 : ℚ)]).toOption.getD emptyStatsRow

/-- Witness for the win-ratio theorem at the singleton `[5]`, whose
aggregation succeeds. -/
theorem fiberWon_is_pos_share_witness :
    buildObservationStats [(5 : ℚ)] = Except.ok row5raw ∧
    row5raw.fiberWon
      = (([(5 : ℚ)].countP fun d => decide (0 < d) : ℚ)) / (([(5 : ℚ)].length : ℚ)) := by
  have hok : buildObservationStats [(5 : ℚ)] = Except.ok row5raw := rfl
  exact ⟨hok, fiberWon_is_pos_share.1 [(5 : ℚ)] row5raw hok⟩

theorem sortedCopy_three : sortedCopy [1, -1, 0] = [-1, 0, 1] := by
  norm_num [sortedCopy, insertAsc]

theorem statsMean_three : statsMean [1, -1, 0] = .ok 0 := by
  norm_num [statsMean, statsSum]

theorem statsMin_three : statsMin [1, -1, 0] = .ok (-1) := by
  norm_num [statsMin]

theorem statsMax_three : statsMax [1, -1, 0] = .ok 1 := by
  norm_num [statsMax]

theorem statsPercentile_three_p1 : statsPercentile [1, -1, 0] 1 = .error .bounds := by
  rw [statsPercentile]
  norm_num [sortedCopy_three]

theorem buildStats_three : buildObservationStats [1, -1, 0] = .error .bounds := by
  simp only [buildObservationStats, statsMean_three, statsMin_three,
    statsMax_three, statsPercentile_three_p1, bind_ok, bind_error]

/-- Claim C3 (counterexample). On `D = [1, -1, 0]` the aggregation does not
yield a win ratio of 1/3 — it yields no row at all: the 1st-percentile
index of a 3-element list is 0.03, below 1, so `buildObservationStats`
returns `BoundsErr`. -/
theorem winfrac_fixture_cex :
    buildObservationStats [1, -1, 0] = Except.error StatsErr.bounds ∧
    ∀ row : ObservationStatsRow, buildObservationStats [1, -1, 0] ≠ Except.ok row := by
  refine ⟨buildStats_three, ?_⟩
  intro row hrow
  rw [buildStats_three] at hrow
  exact Except.noConfusion hrow

theorem sortedCopy_fix : sortedCopy [10, 20, 30, 40] = [10, 20, 30, 40] := by
  norm_num [sortedCopy, insertAsc]

theorem statsMean_fix : statsMean [10, 20, 30, 40] = .ok 25 := by
  norm_num [statsMean, statsSum]

theorem statsMedian_fix : statsMedian [10, 20, 30, 40] = .ok 25 := by
  rw [statsMedian]
  norm_num [sortedCopy_fix]

theorem statsMin_fix : statsMin [10, 20, 30, 40] = .ok 10 := by
  norm_num [statsMin]

theorem statsMax_fix : statsMax [10, 20, 30, 40] = .ok 40 := by
  norm_num [statsMax]

theorem statsPercentile_fix_p25 : statsPercentile [10, 20, 30, 40] 25 = .ok 10 := by
  rw [statsPercentile]
  norm_num [sortedCopy_fix]

theorem statsPercentile_fix_p50 : statsPercentile [10, 20, 30, 40] 50 = .ok 20 := by
  rw [statsPercentile]
  norm_num [sortedCopy_fix]
  rfl

theorem statsPercentile_fix_p1 : statsPercentile [10, 20, 30, 40] 1 = .error .bounds := by
  rw [statsPercentile]
  norm_num [sortedCopy_fix]

theorem buildStats_fix : buildObservationStats [10, 20, 30, 40] = .error .bounds := by
  simp only [buildObservationStats, statsMean_fix, statsMin_fix,
    statsMax_fix, statsPercentile_fix_p1, bind_ok, bind_error]

/-- Claim C7 (amended). For the fixture D = [10, 20, 30, 40], the
mean/median/min/max paths used by `printStats` give 25 / 25 / 10 / 40,
but the library percentile is the nearest-rank-with-midpoint statistic:
p25 evaluates to 10, not the linearly interpolated 17.5, and p50
evaluates to 20, which differs from the median 25; moreover
`buildObservationStats` rejects this 4-element fixture outright with a
bounds error, because the 1st-percentile index 0.04 is below 1. -/
theorem fixture_stats_values :
    statsMean [10, 20, 30, 40] = Except.ok 25 ∧
    statsMedian [10, 20, 30, 40] = Except.ok 25 ∧
    statsMin [10, 20, 30, 40] = Except.ok 10 ∧
    statsMax [10, 20, 30, 40] = Except.ok 40 ∧
    statsPercentile [10, 20, 30, 40] 25 = Except.ok 10 ∧
    statsPercentile [10, 20, 30, 40] 50 = Except.ok 20 ∧
    buildObservationStats [10, 20, 30, 40] = Except.error StatsErr.bounds :=
  ⟨statsMean_fix, statsMedian_fix, statsMin_fix, statsMax_fix,
   statsPercentile_fix_p25, statsPercentile_fix_p50, buildStats_fix⟩

/-- Claim C7 (counterexample). On the fixture the percentile path does not
produce the claimed linear-interpolation values: p25 is not 17.5, p50
does not agree with the median, and the full aggregation errors. -/
theorem fixture_percentile_cex :
    statsPercentile [10, 20, 30, 40] 25 ≠ Except.ok (35 / 2) ∧
    statsPercentile [10, 20, 30, 40] 50 ≠ statsMedian [10, 20, 30, 40] ∧
    buildObservationStats [10, 20, 30, 40] ≠
      Except.ok
        { emptyStatsRow with
          mean := 25, p25 := 35 / 2, p50 := 25, minDiff := 10, maxDiff := 40 } := by
  refine ⟨?_, ?_, ?_⟩
  · rw [statsPercentile_fix_p25]
    intro hc
    rw [Except.ok.injEq] at hc
    norm_num at hc
  · rw [statsPercentile_fix_p50, statsMedian_fix]
    intro hc
    rw [Except.ok.injEq] at hc
    norm_num at hc
  · rw [buildStats_fix]
    intro hc
    exact Except.noConfusion hc

/-- Claim C2 (amended). Aggregating an empty difference list signals an
error (`EmptyInputErr` from the mean), but a single-element list
succeeds; and when the interval's statistics computation errors, the
`Run` loop does not skip the stats row: it logs the error, records the
zero-valued row (stamped with the interval times and benchmark id) to
the sink anyway, and continues with the remaining intervals. -/
theorem degenerate_stats_behavior :
    buildObservationStats ([] : List ℚ) = Except.error StatsErr.emptyInput ∧
    (∀ x : ℚ, (buildObservationStats [x]).isOk = true) ∧
    (∀ (k : SinkKind) (res : Except StatsErr ObservationStatsRow) (t0 t1 : Int)
        (id : String),
        intervalEmit (some k) res t0 t1 id
          = EmitResult.recorded (rowWithMeta (statsOrEmpty res) t0 t1 id)) ∧
    (∀ (k : SinkKind) (id : String)
        (rs : List (Except StatsErr ObservationStatsRow × Int × Int)),
        (runLoop (some k) id rs).length = rs.length) := by
  refine ⟨rfl, buildStats_single_isOk, fun k res t0 t1 id => rfl, ?_⟩
  intro k id rs
  induction rs with
  | nil => rfl
  | cons r rest ih =>
    obtain ⟨res, t0, t1⟩ := r
    simp [runLoop, intervalEmit, ih]

/-- Claim C2 (counterexample). A single-element difference list does not
signal an error (`buildObservationStats [3]` succeeds), and when an
interval does error the runner still records a stats row to the sink —
the zero-valued row with the interval metadata — rather than skipping
it. -/
theorem degenerate_stats_cex :
    (buildObservationStats [(3 : ℚ)]).isOk = true ∧
    intervalEmit (some SinkKind.csv) (Except.error StatsErr.emptyInput) 7 9 "id"
      = EmitResult.recorded (rowWithMeta emptyStatsRow 7 9 "id") :=
  ⟨rfl, rfl⟩

/-- Claim C9. For a run configured with sink `"none"` (the CLI default) or
`"stdout"`, `setupSink` returns a nil sink together with a nil error,
yet the `Run` loop unconditionally calls `RecordStats` (and `Flush`) on
that sink after every interval, so the very first interval's completion
dereferences the nil interface instead of recording a result. -/
theorem nil_sink_panics :
    (∀ chInit csvInit : Except String SinkKind,
        setupSink "none" chInit csvInit = Except.ok none ∧
        setupSink "stdout" chInit csvInit = Except.ok none) ∧
    defaultSinkFlag = "none" ∧
    (∀ (res : Except StatsErr ObservationStatsRow) (t0 t1 : Int) (id : String),
        intervalEmit none res t0 t1 id = EmitResult.nilPanic) ∧
    (∀ (id : String) (r : Except StatsErr ObservationStatsRow × Int × Int)
        (rest : List (Except StatsErr ObservationStatsRow × Int × Int)),
        runLoop none id (r :: rest) = [EmitResult.nilPanic]) := by
  refine ⟨fun chInit csvInit => ⟨rfl, rfl⟩, rfl, fun res t0 t1 id => rfl, ?_⟩
  intro id r rest
  obtain ⟨res, t0, t1⟩ := r
  rfl

/-- A Clickhouse driver batch: all the `Flush` control flow observes of
it is whether it was already sent (`IsSent`). -/
structure ChBatch where
  sent : Bool
deriving DecidableEq

/-- The log lines produced by the `Send` retry loop of `Flush` when the
send fails `n` times before succeeding (transient errors are logged and
retried, never returned). -/
def sendAttemptLogs : Nat → List String
  | 0 => []
  | n + 1 => "sending batch failed, retrying..." :: sendAttemptLogs n

/-- The log lines produced by the `PrepareBatch` reset retry loop of
`Flush` when preparing fails `n` times before succeeding. -/
def prepareAttemptLogs : Nat → List String
  | 0 => []
  | n + 1 => "preparing batch failed, retrying" :: prepareAttemptLogs n

/-- One `Flush` goroutine (`main.go` ClickhouseSink): skip the send if
the batch is already sent, otherwise retry `Send` until it succeeds;
then retry `PrepareBatch` until a fresh batch replaces the sent one.
Returns the error log lines and the fresh (unsent) batch; no error
value escapes the goroutine. -/
def flushWorker (b : ChBatch) (sendFailures prepFailures : Nat) :
    List String × ChBatch :=
  ((if b.sent then [] else sendAttemptLogs sendFailures) ++
     prepareAttemptLogs prepFailures,
   { sent := false })

/-- Go `ClickhouseSink.Flush` (`main.go`): run the two batch goroutines
(sequentialised here; their interleaving does not affect the return
value or the multiset of log lines), wait for both, and `return nil`.
The failure counts say how many transient errors each retry loop
absorbed before succeeding. -/
def clickhouseFlush (obsBatch statsBatch : ChBatch)
    (obsSendFailures obsPrepFailures statsSendFailures statsPrepFailures : Nat) :
    Option String × List String :=
  let w1 := flushWorker obsBatch obsSendFailures obsPrepFailures
  let w2 := flushWorker statsBatch statsSendFailures statsPrepFailures
  (none, w1.1 ++ w2.1)

theorem sendAttemptLogs_length (n : Nat) : (sendAttemptLogs n).length = n := by
  induction n with
  | zero => rfl
  | succ n ih => simp [sendAttemptLogs, ih]

theorem prepareAttemptLogs_length (n : Nat) : (prepareAttemptLogs n).length = n := by
  induction n with
  | zero => rfl
  | succ n ih => simp [prepareAttemptLogs, ih]

/-- Claim C8. `ClickhouseSink.Flush` returns nil on every invocation,
regardless of the batches' state and of how many send or prepare
attempts failed (each failure only adds a retry log line): transient
sink errors are retried inside `Flush` and never surface to the
Benchmark Runner. -/
theorem clickhouse_flush_returns_nil (b1 b2 : ChBatch) (sf1 pf1 sf2 pf2 : Nat) :
    (clickhouseFlush b1 b2 sf1 pf1 sf2 pf2).1 = none ∧
    (clickhouseFlush ⟨false⟩ ⟨false⟩ sf1 pf1 sf2 pf2).2.length
      = sf1 + pf1 + sf2 + pf2 := by
  constructor
  · rfl
  · simp [clickhouseFlush, flushWorker, sendAttemptLogs_length,
      prepareAttemptLogs_length]
    omega

/-- Go `types.BlockObservation`: a block hash, receipt timestamp in
microseconds, and the block's transaction count. -/
structure BlockObs where
  hash : Nat
  timestamp : Int
  transactionsLen : Int
deriving DecidableEq

/-- Go `types.BlockObservationRow` as recorded by the block benchmarker's
sink calls. -/
structure BlockRow where
  blockHash : Nat
  fiberTimestamp : Int
  otherTimestamp : Int
  difference : Int
  benchmarkID : String
  transactionsLen : Int
deriving DecidableEq

/-- The `for hash, fiberObs := range fiberMap` loop of
`BlockBenchmarker.processIntervalResults`: the comparison universe is
the fiber map itself; for each fiber entry, other-saw records the
millisecond difference and a full row, and other-missed records a row
with zeroed other timestamp and difference plus a missing warning.
Returns (differences, rows, hashes logged as missed by the other
source). -/
def processBlockLoop (bench : String) (sinkPresent logMissing : Bool)
    (om : List (Nat × BlockObs)) :
    List (Nat × BlockObs) → List ℚ × List BlockRow × List Nat
  | [] => ([], [], [])
  | (h, fo) :: rest =>
    let tail := processBlockLoop bench sinkPresent logMissing om rest
    match alookup om h with
    | some oo =>
      (milliDiff (oo.timestamp - fo.timestamp) :: tail.1,
       (if sinkPresent then
          [⟨h, fo.timestamp, oo.timestamp, oo.timestamp - fo.timestamp,
            bench, fo.transactionsLen⟩]
        else []) ++ tail.2.1,
       tail.2.2)
    | none =>
      (tail.1,
       (if sinkPresent then
          [⟨h, fo.timestamp, 0, 0, bench, fo.transactionsLen⟩]
        else []) ++ tail.2.1,
       (if logMissing then [h] else []) ++ tail.2.2)

/-- Claim C10. In the block benchmarker the comparison universe is exactly
the fiber map: adding a block hash that only the secondary (other)
source observed leaves the differences, the sink rows and the
missed-block warnings of `processIntervalResults` completely unchanged —
the only effect is that the other source's total observation count (the
map's size, which is logged) grows by one. -/
theorem block_universe_primary_only (bench : String) (sp lm : Bool)
    (fm om : List (Nat × BlockObs)) (h : Nat) (obs : BlockObs)
    (hfm : alookup fm h = none) (hom : alookup om h = none) :
    processBlockLoop bench sp lm (om ++ [(h, obs)]) fm
      = processBlockLoop bench sp lm om fm ∧
    (om ++ [(h, obs)]).length = om.length + 1 := by
  constructor
  · induction fm with
    | nil => rfl
    | cons p rest ih =>
      obtain ⟨k, fo⟩ := p
      have hk : ¬(k = h) := by
        intro hkh
        rw [alookup, if_pos hkh] at hfm
        exact Option.noConfusion hfm
      have hrest : alookup rest h = none := by
        rw [alookup, if_neg hk] at hfm
        exact hfm
      have hlook : alookup (om ++ [(h, obs)]) k = alookup om k := by
        rw [alookup_append_single, if_neg (fun hc => hk hc.symm), optOr_none]
      cases ho : alookup om k with
      | some oo => simp [processBlockLoop, hlook, ho, ih hrest]
      | none => simp [processBlockLoop, hlook, ho, ih hrest]
  · simp

/-- The fiber-only block observation of the C10 witness. -/
def bObsF : BlockObs := ⟨1, 100, 5⟩

/-- The other-source-only block observation of the C10 witness. -/
def bObsO : BlockObs := ⟨2, 50, 7⟩

/-- Witness for the block-universe theorem: inserting the other-only
hash 2 changes nothing in the processed output. -/
theorem block_universe_primary_only_witness :
    alookup [((1 : Nat), bObsF)] 2 = none ∧
    alookup ([] : List (Nat × BlockObs)) 2 = none ∧
    processBlockLoop "b" true true ([] ++ [(2, bObsO)]) [(1, bObsF)]
      = processBlockLoop "b" true true [] [(1, bObsF)] :=
  ⟨rfl, rfl,
   (block_universe_primary_only "b" true true [(1, bObsF)] [] 2 bObsO rfl rfl).1⟩

end FiberBench
